import Mathlib

/-!
# Verification of the incremental document sync engine

A shallow embedding of the sync core of `dify_doc_sync.py` together with the
paging client `dify_dataset_db.py`.  Python dictionaries are modelled as
association lists with Python's `dict` insertion semantics (update in place,
append when new), optional values model `dict.get`, and Python string
truthiness (`None` and `""` are falsy) is made explicit.  Filesystem and HTTP
effects are parametrised: a run takes the list of discovered local files (with
their relative path, base name and SHA-256 digest), the outcome of the remote
listing, and response functions for the create/update document calls; the
run's remote calls are recorded in a trace.
-/

namespace DifySync

/-! ## Python dict primitives -/

/-- `d.get(k)` on a Python dict modelled as an association list:
the value at the first matching key, if any. -/
def dget {α β : Type} [DecidableEq α] : List (α × β) → α → Option β
  | [], _ => none
  | (k', v) :: rest, k => if k' = k then some v else dget rest k

/-- `d[k] = v` on a Python dict: replace the value at an existing key in
place, otherwise append the new key at the end (insertion order). -/
def dset {α β : Type} [DecidableEq α] : List (α × β) → α → β → List (α × β)
  | [], k, v => [(k, v)]
  | (k', v') :: rest, k, v =>
    if k' = k then (k, v) :: rest else (k', v') :: dset rest k v

/-- Python truthiness of an optional string: `None` and `""` are falsy. -/
def strTruthy : Option String → Bool
  | none => false
  | some s => s ≠ ""

/-- Python `a or b` for optional strings. -/
def pyOr (a b : Option String) : Option String :=
  if strTruthy a then a else b

/-! ## Data model -/

/-- A document record from the remote listing; `item.get("name")` and
`item.get("id")` may each be absent. -/
structure RemoteDoc where
  name : Option String
  id : Option String
deriving DecidableEq, Repr

/-- `name_to_id = {item.get("name"): item.get("id") for item in listing}`:
a dict comprehension, so a later item with the same name overwrites an
earlier one. -/
def buildNameToId (docs : List RemoteDoc) : List (Option String × Option String) :=
  docs.foldl (fun m d => dset m d.name d.id) []

/-- A manifest entry as parsed from JSON: a string-to-string object
(`sync_docs` reads the keys `"sha256"` and `"document_id"`). -/
abbrev MEntry := List (String × String)

/-- The manifest: relative path → entry, as parsed from the JSON file. -/
abbrev Manifest := List (String × MEntry)

/-- A locally discovered file as `sync_docs` sees it: `relPath` models
`str(file_path.relative_to(doc_dir))`, `name` models `file_path.name`
(the base name), and `hash` models `_sha256(file_path)`. -/
structure LocalFile where
  relPath : String
  name : String
  hash : String
deriving DecidableEq, Repr

/-- A remote mutation issued by the engine, identified by the file's
relative path (`update_by_file(doc_id, path)` / `create_by_file(path)`). -/
inductive RemoteCall where
  | update (docId : String) (file : String)
  | create (file : String)
deriving DecidableEq, Repr

/-- The relative path of the file a remote call was made for. -/
def RemoteCall.file : RemoteCall → String
  | .update _ f => f
  | .create f => f

/-- The per-file decision the engine logs. -/
inductive Decision where
  | skip
  | update
  | create
deriving DecidableEq, Repr

/-- An error raised by a remote call (`raise_for_status` on a non-2xx
response, or a network failure). -/
abbrev RemoteErr := String

/-- `(resp.get("document") or {}).get("id")` of a create response. -/
structure CreateResp where
  documentId : Option String
deriving DecidableEq, Repr

/-- The remote endpoints `sync_docs` mutates through, as response
functions: `updateResult docId path` is the outcome of
`doc_client.update_by_file(docId, path)` (`none` = success, the response
body is unused), and `createResult path` the outcome of
`doc_client.create_by_file(path)`. -/
structure RemoteEnv where
  updateResult : String → String → Option RemoteErr
  createResult : String → Except RemoteErr CreateResp

/-- The mutable state of one `sync_docs` run: the in-memory manifest, the
two counters, plus the observable traces (remote calls made, and the
decision logged for each processed file). -/
structure SyncState where
  manifest : Manifest
  updated : Nat
  skipped : Nat
  calls : List RemoteCall
  decisions : List (String × Decision)
deriving DecidableEq, Repr

/-- The loop body of `sync_docs` for one file (`dify_doc_sync.py` lines
54-80).  Returns the new state and `some e` when a remote call raised,
which aborts the run.  The decision is recorded when it is logged: before
the remote call that acts on it. -/
def syncStep (env : RemoteEnv) (nameToId : List (Option String × Option String))
    (dryRun : Bool) (st : SyncState) (f : LocalFile) : SyncState × Option RemoteErr :=
  let previous : MEntry := (dget st.manifest f.relPath).getD []
  if dget previous "sha256" = some f.hash then
    ({ st with skipped := st.skipped + 1,
               decisions := st.decisions ++ [(f.relPath, Decision.skip)] }, none)
  else
    let docId := pyOr (dget previous "document_id") ((dget nameToId (some f.name)).join)
    if dryRun then
      ({ st with decisions := st.decisions ++
          [(f.relPath, if strTruthy docId then Decision.update else Decision.create)] },
       none)
    else if strTruthy docId then
      let id := docId.getD ""
      let st := { st with
        decisions := st.decisions ++ [(f.relPath, Decision.update)],
        calls := st.calls ++ [RemoteCall.update id f.relPath] }
      match env.updateResult id f.relPath with
      | some e => (st, some e)
      | none =>
        ({ st with
            manifest := dset st.manifest f.relPath
              [("sha256", f.hash), ("document_id", id)],
            updated := st.updated + 1 }, none)
    else
      let st := { st with
        decisions := st.decisions ++ [(f.relPath, Decision.create)],
        calls := st.calls ++ [RemoteCall.create f.relPath] }
      match env.createResult f.relPath with
      | .error e => (st, some e)
      | .ok resp =>
        let docId := pyOr resp.documentId ((dget nameToId (some f.name)).join)
        ({ st with
            manifest := dset st.manifest f.relPath
              [("sha256", f.hash), ("document_id", docId.getD "")],
            updated := st.updated + 1 }, none)

/-- The `for file_path in _collect_files(doc_dir)` loop: process files in
order, stopping at the first remote error (the exception propagates out of
`sync_docs`). -/
def syncLoop (env : RemoteEnv) (nameToId : List (Option String × Option String))
    (dryRun : Bool) : List LocalFile → SyncState → SyncState × Option RemoteErr
  | [], st => (st, none)
  | f :: fs, st =>
    match syncStep env nameToId dryRun st f with
    | (st', some e) => (st', some e)
    | (st', none) => syncLoop env nameToId dryRun fs st'

/-- The initial state of a run, from the loaded manifest. -/
def initState (m : Manifest) : SyncState :=
  { manifest := m, updated := 0, skipped := 0, calls := [], decisions := [] }

/-- The decision `sync_docs` takes for one file, as a function of the
manifest it consults at that moment (used to compare dry and non-dry
runs). -/
def fileDecision (nameToId : List (Option String × Option String))
    (manifest : Manifest) (f : LocalFile) : Decision :=
  let previous : MEntry := (dget manifest f.relPath).getD []
  if dget previous "sha256" = some f.hash then Decision.skip
  else if strTruthy (pyOr (dget previous "document_id") ((dget nameToId (some f.name)).join))
  then Decision.update else Decision.create

/-! ## Manifest JSON serialization

`_save_manifest` writes `json.dumps(manifest, ensure_ascii=False, indent=2)`.
`json.dumps` escapes exactly `"`, `\` and the control characters `U+0000` to
`U+001F` inside strings (`\b \t \n \f \r` short forms, `\u00XX` otherwise);
with `ensure_ascii=False` every other character is emitted verbatim. -/

/-- Lowercase hexadecimal digit, as CPython's `'{:04x}'.format` emits. -/
def hexDigitChar (n : Nat) : Char :=
  if n < 10 then Char.ofNat (48 + n) else Char.ofNat (87 + n)

/-- The expansion of one character inside a JSON string literal. -/
def escChar (c : Char) : List Char :=
  if c = '"' then ['\\', '"']
  else if c = '\\' then ['\\', '\\']
  else if c = '\x08' then ['\\', 'b']
  else if c = '\t' then ['\\', 't']
  else if c = '\n' then ['\\', 'n']
  else if c = '\x0c' then ['\\', 'f']
  else if c = '\r' then ['\\', 'r']
  else if c.toNat < 0x20 then
    ['\\', 'u', '0', '0', hexDigitChar (c.toNat / 16), hexDigitChar (c.toNat % 16)]
  else [c]

/-- The body of a JSON string literal. -/
def encChars : List Char → List Char
  | [] => []
  | c :: cs => escChar c ++ encChars cs

/-- A JSON string literal for `s`. -/
def quoteString (s : String) : String :=
  "\"" ++ String.mk (encChars s.data) ++ "\""

/-- The members of an inner (entry) object, at indent 4, separated by
`",\n"` as `json.dumps(..., indent=2)` produces. -/
def dumpsInnerMembers : MEntry → String
  | [] => ""
  | [(k, v)] => "    " ++ quoteString k ++ ": " ++ quoteString v
  | (k, v) :: rest =>
    "    " ++ quoteString k ++ ": " ++ quoteString v ++ ",\n" ++ dumpsInnerMembers rest

/-- An inner (entry) object, whose closing brace sits at indent 2. -/
def dumpsInner : MEntry → String
  | [] => "\x7b\x7d"
  | e => "\x7b\n" ++ dumpsInnerMembers e ++ "\n  \x7d"

/-- The members of the top-level object, at indent 2. -/
def dumpsMembers : Manifest → String
  | [] => ""
  | [(k, v)] => "  " ++ quoteString k ++ ": " ++ dumpsInner v
  | (k, v) :: rest =>
    "  " ++ quoteString k ++ ": " ++ dumpsInner v ++ ",\n" ++ dumpsMembers rest

/-- `json.dumps(manifest, ensure_ascii=False, indent=2)`. -/
def dumpsManifest : Manifest → String
  | [] => "\x7b\x7d"
  | m => "\x7b\n" ++ dumpsMembers m ++ "\n\x7d"

/-! ## Manifest JSON parsing

`_load_manifest` calls `json.loads`, modelled here on the manifest schema
(an object of objects of strings, the only shape `_save_manifest` writes and
`sync_docs` reads): a character-at-a-time state machine that skips JSON
whitespace between tokens, decodes the standard string escapes, rejects raw
control characters inside strings (`json.loads` is strict by default), and
builds dictionaries with last-occurrence-wins key semantics as Python dicts
do.  Inputs outside this schema are rejected; `\uXXXX` escapes in the
surrogate range are rejected as well (Lean strings hold scalar values only —
no output of `json.dumps` on a manifest contains them). -/

/-- Where the string literal being scanned will be used. -/
inductive StrCtx where
  | topKey (acc : Manifest)
  | innerKey (acc : Manifest) (key : String) (iacc : MEntry)
  | innerVal (acc : Manifest) (key : String) (iacc : MEntry) (ikey : String)
deriving DecidableEq, Repr

/-- Position inside a string literal: plain text, just after a backslash,
or inside a `\uXXXX` escape with `seen` digits consumed so far. -/
inductive StrPos where
  | norm
  | esc
  | uni (seen : Nat) (val : Nat)
deriving DecidableEq, Repr

/-- Parser states for the two-level object grammar. -/
inductive PSt where
  | start
  | topFirst (acc : Manifest)
  | topKeyQ (acc : Manifest)
  | str (ctx : StrCtx) (cs : List Char) (pos : StrPos)
  | topColon (acc : Manifest) (key : String)
  | topVal (acc : Manifest) (key : String)
  | innerFirst (acc : Manifest) (key : String) (iacc : MEntry)
  | innerKeyQ (acc : Manifest) (key : String) (iacc : MEntry)
  | innerColon (acc : Manifest) (key : String) (iacc : MEntry) (ikey : String)
  | innerValQ (acc : Manifest) (key : String) (iacc : MEntry) (ikey : String)
  | innerAfter (acc : Manifest) (key : String) (iacc : MEntry)
  | topAfter (acc : Manifest)
  | done (acc : Manifest)
  | fail
deriving DecidableEq, Repr

/-- Dispatch on a completed string literal (`cs` arrives reversed). -/
def finishStr (ctx : StrCtx) (s : String) : PSt :=
  match ctx with
  | .topKey acc => .topColon acc s
  | .innerKey acc key iacc => .innerColon acc key iacc s
  | .innerVal acc key iacc ikey => .innerAfter acc key (dset iacc ikey s)

/-- The single-character escapes `json.loads` accepts after a backslash. -/
def escDecode (c : Char) : Option Char :=
  if c = '"' then some '"'
  else if c = '\\' then some '\\'
  else if c = '/' then some '/'
  else if c = 'b' then some '\x08'
  else if c = 'f' then some '\x0c'
  else if c = 'n' then some '\n'
  else if c = 'r' then some '\r'
  else if c = 't' then some '\t'
  else none

/-- Value of one hexadecimal digit (both cases), if it is one. -/
def hexVal (c : Char) : Option Nat :=
  if '0' ≤ c ∧ c ≤ '9' then some (c.toNat - 48)
  else if 'a' ≤ c ∧ c ≤ 'f' then some (c.toNat - 87)
  else if 'A' ≤ c ∧ c ≤ 'F' then some (c.toNat - 55)
  else none

/-- JSON inter-token whitespace. -/
def isJsonWs (c : Char) : Bool :=
  c = ' ' || c = '\t' || c = '\n' || c = '\r'

/-- One step of the manifest parser. -/
def jstep (st : PSt) (c : Char) : PSt :=
  match st with
  | .start =>
    if isJsonWs c then .start
    else if c = '\x7b' then .topFirst [] else .fail
  | .topFirst acc =>
    if isJsonWs c then .topFirst acc
    else if c = '\x7d' then .done acc
    else if c = '"' then .str (.topKey acc) [] .norm
    else .fail
  | .topKeyQ acc =>
    if isJsonWs c then .topKeyQ acc
    else if c = '"' then .str (.topKey acc) [] .norm
    else .fail
  | .str ctx cs pos =>
    match pos with
    | .norm =>
      if c = '"' then finishStr ctx (String.mk cs.reverse)
      else if c = '\\' then .str ctx cs .esc
      else if c.toNat < 0x20 then .fail
      else .str ctx (c :: cs) .norm
    | .esc =>
      if c = 'u' then .str ctx cs (.uni 0 0)
      else
        match escDecode c with
        | some d => .str ctx (d :: cs) .norm
        | none => .fail
    | .uni seen val =>
      match hexVal c with
      | none => .fail
      | some d =>
        let val' := val * 16 + d
        if seen = 3 then
          if val' < 0xD800 ∨ (0xE000 ≤ val' ∧ val' < 0x110000) then
            .str ctx (Char.ofNat val' :: cs) .norm
          else .fail
        else .str ctx cs (.uni (seen + 1) val')
  | .topColon acc key =>
    if isJsonWs c then .topColon acc key
    else if c = ':' then .topVal acc key else .fail
  | .topVal acc key =>
    if isJsonWs c then .topVal acc key
    else if c = '\x7b' then .innerFirst acc key [] else .fail
  | .innerFirst acc key iacc =>
    if isJsonWs c then .innerFirst acc key iacc
    else if c = '\x7d' then .topAfter (dset acc key iacc)
    else if c = '"' then .str (.innerKey acc key iacc) [] .norm
    else .fail
  | .innerKeyQ acc key iacc =>
    if isJsonWs c then .innerKeyQ acc key iacc
    else if c = '"' then .str (.innerKey acc key iacc) [] .norm
    else .fail
  | .innerColon acc key iacc ikey =>
    if isJsonWs c then .innerColon acc key iacc ikey
    else if c = ':' then .innerValQ acc key iacc ikey else .fail
  | .innerValQ acc key iacc ikey =>
    if isJsonWs c then .innerValQ acc key iacc ikey
    else if c = '"' then .str (.innerVal acc key iacc ikey) [] .norm
    else .fail
  | .innerAfter acc key iacc =>
    if isJsonWs c then .innerAfter acc key iacc
    else if c = ',' then .innerKeyQ acc key iacc
    else if c = '\x7d' then .topAfter (dset acc key iacc)
    else .fail
  | .topAfter acc =>
    if isJsonWs c then .topAfter acc
    else if c = ',' then .topKeyQ acc
    else if c = '\x7d' then .done acc
    else .fail
  | .done acc => if isJsonWs c then .done acc else .fail
  | .fail => .fail

/-- `json.loads` on the manifest schema: run the machine over the input;
anything that does not end in an accepted top-level object raises. -/
def parseManifest (s : String) : Except String Manifest :=
  match s.data.foldl jstep PSt.start with
  | .done acc => Except.ok acc
  | _ => Except.error "invalid manifest JSON"

/-! ## Manifest persistence -/

/-- `_load_manifest(manifest_path)`: returns `{}` when the file does not
exist (`contents = none`); otherwise `json.loads` on the file contents —
there is no exception handler, so a parse failure propagates. -/
def _load_manifest (contents : Option String) : Except String Manifest :=
  match contents with
  | none => Except.ok []
  | some s => parseManifest s

/-- `_save_manifest(manifest_path, manifest)`: the bytes written, i.e.
`json.dumps(manifest, ensure_ascii=False, indent=2)`. -/
def _save_manifest (m : Manifest) : String := dumpsManifest m

/-- The successive on-disk contents of the manifest file while
`_save_manifest` runs: `Path.write_text` opens the file with mode `"w"`,
which truncates it at once, then writes the serialized text, so between
the truncation and the completed write the file holds a proper prefix of
the new text (the empty string right after truncation). -/
def saveManifestStates (m : Manifest) : List String :=
  (List.range ((_save_manifest m).length + 1)).map (fun k => (_save_manifest m).take k)

/-! ## The full `sync_docs` run -/

/-- An exception propagating out of `sync_docs`. -/
inductive SyncError where
  | load (e : String)
  | remote (e : RemoteErr)
deriving DecidableEq, Repr

/-- The observable outcome of one `sync_docs` invocation: the final loop
state (absent when the run failed before the loop), the propagated
exception if any, whether `_save_manifest` was invoked, and the manifest
file bytes after the run (`none` = file still missing). -/
structure SyncOutcome where
  state : Option SyncState
  error : Option SyncError
  saved : Bool
  fileContents : Option String
deriving DecidableEq, Repr

/-- `sync_docs(doc_dir, manifest_path, dry_run)`, parametrised by the
remote environment, the outcome of `db_client.list_all_documents()`, the
discovered files and the prior manifest file contents.  Mirrors the
source order: load the manifest, fetch the listing and build the name
index, run the per-file loop, and save the manifest once at the end
unless `dry_run`; any exception propagates and leaves the file as it
was. -/
def sync_docs (env : RemoteEnv) (listing : Except RemoteErr (List RemoteDoc))
    (files : List LocalFile) (contents : Option String) (dryRun : Bool) : SyncOutcome :=
  match _load_manifest contents with
  | .error e =>
    { state := none, error := some (.load e), saved := false, fileContents := contents }
  | .ok m =>
    match listing with
    | .error e =>
      { state := none, error := some (.remote e), saved := false, fileContents := contents }
    | .ok docs =>
      let nameToId := buildNameToId docs
      match syncLoop env nameToId dryRun files (initState m) with
      | (st, some e) =>
        { state := some st, error := some (.remote e), saved := false, fileContents := contents }
      | (st, none) =>
        if dryRun then
          { state := some st, error := none, saved := false, fileContents := contents }
        else
          { state := some st, error := none, saved := true,
            fileContents := some (_save_manifest st.manifest) }

/-! ## Remote listing pagination -/

/-- The paging loop of `list_all_documents(limit)` from page `page`, with
explicit fuel for the source's unbounded `while True`.  A page response is
`pages n : Option (List RemoteDoc)` — the value of `resp.get("data", [])`,
with `none` for a null `"data"`; the source's `or []` collapses both to
`[]`.  Returns the accumulated documents and the page numbers requested. -/
def listAllFrom (pages : Nat → Option (List RemoteDoc)) (limit : Nat) :
    Nat → Nat → List RemoteDoc × List Nat
  | 0, _ => ([], [])
  | fuel + 1, page =>
    let items := (pages page).getD []
    if items.length < limit then (items, [page])
    else
      let rest := listAllFrom pages limit fuel (page + 1)
      (items ++ rest.1, page :: rest.2)

/-- `list_all_documents(limit)`: page from 1 until a page shorter than
`limit` is returned. -/
def list_all_documents (pages : Nat → Option (List RemoteDoc)) (limit : Nat)
    (fuel : Nat) : List RemoteDoc × List Nat :=
  listAllFrom pages limit fuel 1

/-! ## Dict lemmas -/

theorem dget_dset_self {α β : Type} [DecidableEq α] (m : List (α × β)) (k : α) (v : β) :
    dget (dset m k v) k = some v := by
  induction m with
  | nil => simp [dget, dset]
  | cons kv rest ih =>
    obtain ⟨k', v'⟩ := kv
    by_cases h : k' = k
    · simp [dset, h, dget]
    · simp [dset, h, dget, ih]

theorem dget_dset_ne {α β : Type} [DecidableEq α] (m : List (α × β)) (k' k : α) (v : β)
    (h : k' ≠ k) : dget (dset m k' v) k = dget m k := by
  induction m with
  | nil => simp [dget, dset, h]
  | cons kv rest ih =>
    obtain ⟨k₀, v₀⟩ := kv
    by_cases h₀ : k₀ = k'
    · subst h₀; simp [dset, dget, h]
    · simp only [dset, if_neg h₀, dget]
      by_cases h₁ : k₀ = k <;> simp [h₁, ih]

theorem dset_eq_append {α β : Type} [DecidableEq α] (m : List (α × β)) (k : α) (v : β)
    (h : k ∉ m.map Prod.fst) : dset m k v = m ++ [(k, v)] := by
  induction m with
  | nil => simp [dset]
  | cons kv rest ih =>
    obtain ⟨k₀, v₀⟩ := kv
    simp only [List.map_cons, List.mem_cons] at h
    push_neg at h
    have hne : ¬ k₀ = k := fun hh => h.1 hh.symm
    simp [dset, hne, ih h.2]

theorem foldl_dset_eq_append {α β : Type} [DecidableEq α] :
    ∀ (e m : List (α × β)), (e.map Prod.fst).Nodup →
      (∀ k ∈ e.map Prod.fst, k ∉ m.map Prod.fst) →
      e.foldl (fun a kv => dset a kv.1 kv.2) m = m ++ e := by
  intro e
  induction e with
  | nil => simp
  | cons kv rest ih =>
    intro m hnd hfresh
    obtain ⟨k, v⟩ := kv
    simp only [List.map_cons, List.nodup_cons] at hnd
    have hk : k ∉ m.map Prod.fst := hfresh k (by simp)
    have step : dset m k v = m ++ [(k, v)] := dset_eq_append m k v hk
    simp only [List.foldl_cons, step]
    rw [ih (m ++ [(k, v)]) hnd.2]
    · simp
    · intro k' hk'
      simp only [List.map_append, List.mem_append, List.map_cons]
      push_neg
      refine ⟨fun hmem => hfresh k' (by simp [hk']) hmem, ?_⟩
      simp only [List.map_nil, List.mem_singleton]
      intro hkk
      exact hnd.1 (hkk ▸ hk')

theorem foldl_dset_nil {α β : Type} [DecidableEq α] (e : List (α × β))
    (h : (e.map Prod.fst).Nodup) :
    e.foldl (fun a kv => dset a kv.1 kv.2) [] = e := by
  simpa using foldl_dset_eq_append e [] h (by simp)

/-- Folding listing items whose names avoid `k` does not change the index
at `k`. -/
theorem dget_foldl_names_ne (l : List RemoteDoc) (k : Option String) :
    ∀ m, (∀ d ∈ l, d.name ≠ k) →
      dget (l.foldl (fun m d => dset m d.name d.id) m) k = dget m k := by
  induction l with
  | nil => intro m _; rfl
  | cons d rest ih =>
    intro m h
    simp only [List.foldl_cons]
    rw [ih _ (fun d' hd' => h d' (by simp [hd']))]
    exact dget_dset_ne m d.name k d.id (h d (by simp))

/-! ## Step characterizations -/

theorem syncStep_skip (env : RemoteEnv) (nameToId : List (Option String × Option String))
    (dry : Bool) (st : SyncState) (f : LocalFile)
    (h : dget ((dget st.manifest f.relPath).getD []) "sha256" = some f.hash) :
    syncStep env nameToId dry st f =
      ({ st with skipped := st.skipped + 1,
                 decisions := st.decisions ++ [(f.relPath, Decision.skip)] }, none) := by
  simp [syncStep, h]

theorem syncStep_dry (env : RemoteEnv) (nameToId : List (Option String × Option String))
    (st : SyncState) (f : LocalFile)
    (h : ¬ dget ((dget st.manifest f.relPath).getD []) "sha256" = some f.hash) :
    syncStep env nameToId true st f =
      ({ st with decisions := st.decisions ++
          [(f.relPath,
            if strTruthy (pyOr (dget ((dget st.manifest f.relPath).getD []) "document_id")
                ((dget nameToId (some f.name)).join))
            then Decision.update else Decision.create)] }, none) := by
  simp [syncStep, h]

theorem syncStep_update_ok (env : RemoteEnv) (nameToId : List (Option String × Option String))
    (st : SyncState) (f : LocalFile) (id : String)
    (h : ¬ dget ((dget st.manifest f.relPath).getD []) "sha256" = some f.hash)
    (hid : pyOr (dget ((dget st.manifest f.relPath).getD []) "document_id")
        ((dget nameToId (some f.name)).join) = some id)
    (hne : id ≠ "")
    (hok : env.updateResult id f.relPath = none) :
    syncStep env nameToId false st f =
      ({ st with
          manifest := dset st.manifest f.relPath [("sha256", f.hash), ("document_id", id)],
          updated := st.updated + 1,
          calls := st.calls ++ [RemoteCall.update id f.relPath],
          decisions := st.decisions ++ [(f.relPath, Decision.update)] }, none) := by
  simp only [syncStep, if_neg h, Bool.false_eq_true, if_false]
  rw [hid]
  have ht : strTruthy (some id) = true := by simpa [strTruthy] using hne
  simp [ht, hok]

theorem syncStep_update_err (env : RemoteEnv) (nameToId : List (Option String × Option String))
    (st : SyncState) (f : LocalFile) (id : String) (e : RemoteErr)
    (h : ¬ dget ((dget st.manifest f.relPath).getD []) "sha256" = some f.hash)
    (hid : pyOr (dget ((dget st.manifest f.relPath).getD []) "document_id")
        ((dget nameToId (some f.name)).join) = some id)
    (hne : id ≠ "")
    (herr : env.updateResult id f.relPath = some e) :
    syncStep env nameToId false st f =
      ({ st with
          calls := st.calls ++ [RemoteCall.update id f.relPath],
          decisions := st.decisions ++ [(f.relPath, Decision.update)] }, some e) := by
  simp only [syncStep, if_neg h, Bool.false_eq_true, if_false]
  rw [hid]
  have ht : strTruthy (some id) = true := by simpa [strTruthy] using hne
  simp [ht, herr]

theorem syncStep_create_ok (env : RemoteEnv) (nameToId : List (Option String × Option String))
    (st : SyncState) (f : LocalFile) (resp : CreateResp)
    (h : ¬ dget ((dget st.manifest f.relPath).getD []) "sha256" = some f.hash)
    (hid : strTruthy (pyOr (dget ((dget st.manifest f.relPath).getD []) "document_id")
        ((dget nameToId (some f.name)).join)) = false)
    (hok : env.createResult f.relPath = Except.ok resp) :
    syncStep env nameToId false st f =
      ({ st with
          manifest := dset st.manifest f.relPath
            [("sha256", f.hash),
             ("document_id",
              (pyOr resp.documentId ((dget nameToId (some f.name)).join)).getD "")],
          updated := st.updated + 1,
          calls := st.calls ++ [RemoteCall.create f.relPath],
          decisions := st.decisions ++ [(f.relPath, Decision.create)] }, none) := by
  simp only [syncStep, if_neg h, Bool.false_eq_true, if_false]
  rw [hid]
  simp [hok]

theorem syncStep_create_err (env : RemoteEnv) (nameToId : List (Option String × Option String))
    (st : SyncState) (f : LocalFile) (e : RemoteErr)
    (h : ¬ dget ((dget st.manifest f.relPath).getD []) "sha256" = some f.hash)
    (hid : strTruthy (pyOr (dget ((dget st.manifest f.relPath).getD []) "document_id")
        ((dget nameToId (some f.name)).join)) = false)
    (herr : env.createResult f.relPath = Except.error e) :
    syncStep env nameToId false st f =
      ({ st with
          calls := st.calls ++ [RemoteCall.create f.relPath],
          decisions := st.decisions ++ [(f.relPath, Decision.create)] }, some e) := by
  simp only [syncStep, if_neg h, Bool.false_eq_true, if_false]
  rw [hid]
  simp [herr]

/-- A step leaves every manifest key other than the processed file's
relative path unchanged. -/
theorem syncStep_manifest_frame (env : RemoteEnv)
    (nameToId : List (Option String × Option String)) (dry : Bool)
    (st : SyncState) (f : LocalFile) (k : String) (hk : f.relPath ≠ k) :
    dget (syncStep env nameToId dry st f).1.manifest k = dget st.manifest k := by
  unfold syncStep
  simp only []
  split
  · rfl
  · split
    · rfl
    · split
      · split
        · rfl
        · simp [dget_dset_ne _ _ _ _ hk]
      · split
        · rfl
        · simp [dget_dset_ne _ _ _ _ hk]

/-- Every remote call a step appends is for the processed file. -/
theorem syncStep_calls (env : RemoteEnv)
    (nameToId : List (Option String × Option String)) (dry : Bool)
    (st : SyncState) (f : LocalFile) (c : RemoteCall)
    (hc : c ∈ (syncStep env nameToId dry st f).1.calls) :
    c ∈ st.calls ∨ c.file = f.relPath := by
  unfold syncStep at hc
  simp only [] at hc
  split at hc
  · exact Or.inl hc
  · split at hc
    · exact Or.inl hc
    · split at hc
      · split at hc <;>
          · simp only [List.mem_append, List.mem_singleton] at hc
            rcases hc with hc | hc
            · exact Or.inl hc
            · subst hc; exact Or.inr rfl
      · split at hc <;>
          · simp only [List.mem_append, List.mem_singleton] at hc
            rcases hc with hc | hc
            · exact Or.inl hc
            · subst hc; exact Or.inr rfl

/-- A dry-run step never fails, never calls the remote side, never
touches the manifest and never increments `updated`. -/
theorem syncStep_dry_total (env : RemoteEnv)
    (nameToId : List (Option String × Option String)) (st : SyncState) (f : LocalFile) :
    (syncStep env nameToId true st f).2 = none ∧
    (syncStep env nameToId true st f).1.calls = st.calls ∧
    (syncStep env nameToId true st f).1.manifest = st.manifest ∧
    (syncStep env nameToId true st f).1.updated = st.updated := by
  by_cases h : dget ((dget st.manifest f.relPath).getD []) "sha256" = some f.hash
  · rw [syncStep_skip env nameToId true st f h]
    exact ⟨rfl, rfl, rfl, rfl⟩
  · rw [syncStep_dry env nameToId st f h]
    exact ⟨rfl, rfl, rfl, rfl⟩

/-- A successful non-dry step counts the file exactly once. -/
theorem syncStep_wet_counts (env : RemoteEnv)
    (nameToId : List (Option String × Option String)) (st st' : SyncState) (f : LocalFile)
    (h : syncStep env nameToId false st f = (st', none)) :
    st'.updated + st'.skipped = st.updated + st.skipped + 1 := by
  by_cases hs : dget ((dget st.manifest f.relPath).getD []) "sha256" = some f.hash
  · rw [syncStep_skip env nameToId false st f hs] at h
    injection h with h1 h2
    subst h1
    simp only []
    omega
  · rcases hdoc : pyOr (dget ((dget st.manifest f.relPath).getD []) "document_id")
        ((dget nameToId (some f.name)).join) with _ | id
    · have hfalse : strTruthy (pyOr (dget ((dget st.manifest f.relPath).getD []) "document_id")
          ((dget nameToId (some f.name)).join)) = false := by rw [hdoc]; rfl
      rcases hc : env.createResult f.relPath with e | resp
      · rw [syncStep_create_err env nameToId st f e hs hfalse hc] at h
        injection h with h1 h2
        exact absurd h2 (by simp)
      · rw [syncStep_create_ok env nameToId st f resp hs hfalse hc] at h
        injection h with h1 h2
        subst h1
        simp only []
        omega
    · by_cases hid0 : id = ""
      · subst hid0
        have hfalse : strTruthy (pyOr (dget ((dget st.manifest f.relPath).getD []) "document_id")
            ((dget nameToId (some f.name)).join)) = false := by rw [hdoc]; rfl
        rcases hc : env.createResult f.relPath with e | resp
        · rw [syncStep_create_err env nameToId st f e hs hfalse hc] at h
          injection h with h1 h2
          exact absurd h2 (by simp)
        · rw [syncStep_create_ok env nameToId st f resp hs hfalse hc] at h
          injection h with h1 h2
          subst h1
          simp only []
          omega
      · rcases hu : env.updateResult id f.relPath with _ | e
        · rw [syncStep_update_ok env nameToId st f id hs hdoc hid0 hu] at h
          injection h with h1 h2
          subst h1
          simp only []
          omega
        · rw [syncStep_update_err env nameToId st f id e hs hdoc hid0 hu] at h
          injection h with h1 h2
          exact absurd h2 (by simp)

/-- A successful step logs exactly one decision, for the processed file:
the `fileDecision` of the manifest the step started from. -/
theorem syncStep_ok_decisions (env : RemoteEnv)
    (nameToId : List (Option String × Option String)) (dry : Bool)
    (st st' : SyncState) (f : LocalFile)
    (h : syncStep env nameToId dry st f = (st', none)) :
    st'.decisions = st.decisions ++ [(f.relPath, fileDecision nameToId st.manifest f)] := by
  by_cases hs : dget ((dget st.manifest f.relPath).getD []) "sha256" = some f.hash
  · rw [syncStep_skip env nameToId dry st f hs] at h
    injection h with h1 h2
    subst h1
    simp [fileDecision, hs]
  · cases dry with
    | true =>
      rw [syncStep_dry env nameToId st f hs] at h
      injection h with h1 h2
      subst h1
      simp only [fileDecision, if_neg hs]
    | false =>
      rcases hdoc : pyOr (dget ((dget st.manifest f.relPath).getD []) "document_id")
          ((dget nameToId (some f.name)).join) with _ | id
      · have hfalse : strTruthy (pyOr (dget ((dget st.manifest f.relPath).getD []) "document_id")
            ((dget nameToId (some f.name)).join)) = false := by rw [hdoc]; rfl
        rcases hc : env.createResult f.relPath with e | resp
        · rw [syncStep_create_err env nameToId st f e hs hfalse hc] at h
          injection h with h1 h2
          exact absurd h2 (by simp)
        · rw [syncStep_create_ok env nameToId st f resp hs hfalse hc] at h
          injection h with h1 h2
          subst h1
          have hdec : fileDecision nameToId st.manifest f = Decision.create := by
            simp only [fileDecision, if_neg hs]
            rw [hfalse]
            simp
          rw [hdec]
      · by_cases hid0 : id = ""
        · subst hid0
          have hfalse : strTruthy (pyOr (dget ((dget st.manifest f.relPath).getD []) "document_id")
              ((dget nameToId (some f.name)).join)) = false := by rw [hdoc]; rfl
          rcases hc : env.createResult f.relPath with e | resp
          · rw [syncStep_create_err env nameToId st f e hs hfalse hc] at h
            injection h with h1 h2
            exact absurd h2 (by simp)
          · rw [syncStep_create_ok env nameToId st f resp hs hfalse hc] at h
            injection h with h1 h2
            subst h1
            have hdec : fileDecision nameToId st.manifest f = Decision.create := by
              simp only [fileDecision, if_neg hs]
              rw [hfalse]
              simp
            rw [hdec]
        · have htrue : strTruthy (pyOr (dget ((dget st.manifest f.relPath).getD []) "document_id")
              ((dget nameToId (some f.name)).join)) = true := by
            rw [hdoc]; simpa [strTruthy] using hid0
          rcases hu : env.updateResult id f.relPath with _ | e
          · rw [syncStep_update_ok env nameToId st f id hs hdoc hid0 hu] at h
            injection h with h1 h2
            subst h1
            have hdec : fileDecision nameToId st.manifest f = Decision.update := by
              simp only [fileDecision, if_neg hs]
              rw [htrue]
              simp
            rw [hdec]
          · rw [syncStep_update_err env nameToId st f id e hs hdoc hid0 hu] at h
            injection h with h1 h2
            exact absurd h2 (by simp)

/-! ## Loop lemmas -/

theorem syncLoop_append (env : RemoteEnv)
    (nameToId : List (Option String × Option String)) (dry : Bool)
    (l₁ l₂ : List LocalFile) (st : SyncState) :
    syncLoop env nameToId dry (l₁ ++ l₂) st =
      match syncLoop env nameToId dry l₁ st with
      | (st', none) => syncLoop env nameToId dry l₂ st'
      | (st', some e) => (st', some e) := by
  induction l₁ generalizing st with
  | nil => simp [syncLoop]
  | cons f fs ih =>
    simp only [List.cons_append, syncLoop]
    rcases hstep : syncStep env nameToId dry st f with ⟨st', r⟩
    cases r with
    | none => simp [ih]
    | some e => simp

/-- The loop leaves every manifest key that is no file's relative path
unchanged (also when it aborts early on a remote error). -/
theorem syncLoop_manifest_frame (env : RemoteEnv)
    (nameToId : List (Option String × Option String)) (dry : Bool) :
    ∀ (files : List LocalFile) (st : SyncState) (k : String),
      (∀ f ∈ files, f.relPath ≠ k) →
      dget (syncLoop env nameToId dry files st).1.manifest k = dget st.manifest k := by
  intro files
  induction files with
  | nil => intro st k _; rfl
  | cons f fs ih =>
    intro st k h
    have hf : f.relPath ≠ k := h f (by simp)
    have hframe := syncStep_manifest_frame env nameToId dry st f k hf
    simp only [syncLoop]
    rcases hstep : syncStep env nameToId dry st f with ⟨st', r⟩
    rw [hstep] at hframe
    cases r with
    | none => simpa [hframe] using ih st' k (fun g hg => h g (by simp [hg]))
    | some e => simpa using hframe

/-- Every remote call in the loop's trace is for one of the processed
files. -/
theorem syncLoop_calls (env : RemoteEnv)
    (nameToId : List (Option String × Option String)) (dry : Bool) :
    ∀ (files : List LocalFile) (st : SyncState) (c : RemoteCall),
      c ∈ (syncLoop env nameToId dry files st).1.calls →
      c ∈ st.calls ∨ ∃ f ∈ files, c.file = f.relPath := by
  intro files
  induction files with
  | nil => intro st c hc; exact Or.inl hc
  | cons f fs ih =>
    intro st c hc
    simp only [syncLoop] at hc
    rcases hstep : syncStep env nameToId dry st f with ⟨st', r⟩
    rw [hstep] at hc
    have hstepc : c ∈ st'.calls → c ∈ st.calls ∨ c.file = f.relPath := by
      intro hmem
      have := syncStep_calls env nameToId dry st f c
      rw [hstep] at this
      exact this hmem
    cases r with
    | none =>
      rcases ih st' c hc with hin | ⟨g, hg, hgf⟩
      · rcases hstepc hin with hin' | hf
        · exact Or.inl hin'
        · exact Or.inr ⟨f, by simp, hf⟩
      · exact Or.inr ⟨g, by simp [hg], hgf⟩
    | some e =>
      rcases hstepc hc with hin' | hf
      · exact Or.inl hin'
      · exact Or.inr ⟨f, by simp, hf⟩

theorem pyOr_pos (a b : Option String) (h : strTruthy a = true) : pyOr a b = a := by
  simp [pyOr, h]

theorem pyOr_neg (a b : Option String) (h : strTruthy a = false) : pyOr a b = b := by
  simp [pyOr, h]

theorem fileDecision_congr (nameToId : List (Option String × Option String))
    (m₁ m₂ : Manifest) (f : LocalFile)
    (h : dget m₁ f.relPath = dget m₂ f.relPath) :
    fileDecision nameToId m₁ f = fileDecision nameToId m₂ f := by
  simp only [fileDecision, h]

/-- A dry-run loop never fails, never calls the remote side, never
touches the manifest and never increments `updated`. -/
theorem syncLoop_dry_total (env : RemoteEnv)
    (nameToId : List (Option String × Option String)) :
    ∀ (files : List LocalFile) (st : SyncState),
      (syncLoop env nameToId true files st).2 = none ∧
      (syncLoop env nameToId true files st).1.calls = st.calls ∧
      (syncLoop env nameToId true files st).1.manifest = st.manifest ∧
      (syncLoop env nameToId true files st).1.updated = st.updated := by
  intro files
  induction files with
  | nil => intro st; exact ⟨rfl, rfl, rfl, rfl⟩
  | cons f fs ih =>
    intro st
    have hstep := syncStep_dry_total env nameToId st f
    simp only [syncLoop]
    rcases hs : syncStep env nameToId true st f with ⟨st', r⟩
    rw [hs] at hstep
    obtain ⟨h2, hcalls, hman, hupd⟩ := hstep
    cases r with
    | none =>
      obtain ⟨ih1, ih2, ih3, ih4⟩ := ih st'
      exact ⟨ih1, by rw [ih2, hcalls], by rw [ih3, hman], by rw [ih4, hupd]⟩
    | some e => exact absurd h2 (by simp)

/-- A completed non-dry loop counts every file exactly once. -/
theorem syncLoop_wet_counts (env : RemoteEnv)
    (nameToId : List (Option String × Option String)) :
    ∀ (files : List LocalFile) (st₀ st : SyncState),
      syncLoop env nameToId false files st₀ = (st, none) →
      st.updated + st.skipped = st₀.updated + st₀.skipped + files.length := by
  intro files
  induction files with
  | nil =>
    intro st₀ st h
    injection h with h1 h2
    subst h1
    simp
  | cons f fs ih =>
    intro st₀ st h
    simp only [syncLoop] at h
    rcases hs : syncStep env nameToId false st₀ f with ⟨st', r⟩
    rw [hs] at h
    cases r with
    | none =>
      have hcount := syncStep_wet_counts env nameToId st₀ st' f hs
      have := ih st' st h
      simp only [List.length_cons]
      omega
    | some e =>
      injection h with h1 h2
      exact absurd h2.symm (by simp)

/-- Dry and non-dry loops log the same decisions when they start from
manifests agreeing on the files to process (with distinct relative paths)
and the non-dry loop completes. -/
theorem syncLoop_dry_wet (env : RemoteEnv)
    (nameToId : List (Option String × Option String)) :
    ∀ (files : List LocalFile) (stw std st : SyncState),
      (∀ f ∈ files, dget std.manifest f.relPath = dget stw.manifest f.relPath) →
      (files.map LocalFile.relPath).Nodup →
      std.decisions = stw.decisions →
      syncLoop env nameToId false files stw = (st, none) →
      (syncLoop env nameToId true files std).1.decisions = st.decisions := by
  intro files
  induction files with
  | nil =>
    intro stw std st _ _ hdec h
    injection h with h1 h2
    subst h1
    exact hdec
  | cons f fs ih =>
    intro stw std st hagree hnodup hdec h
    simp only [syncLoop] at h ⊢
    rcases hw : syncStep env nameToId false stw f with ⟨stw', r⟩
    rw [hw] at h
    cases r with
    | some e =>
      injection h with h1 h2
      exact absurd h2.symm (by simp)
    | none =>
      have hdt := syncStep_dry_total env nameToId std f
      rcases hd : syncStep env nameToId true std f with ⟨std', rd⟩
      rw [hd] at hdt
      obtain ⟨hrd, hdcalls, hdman, hdupd⟩ := hdt
      cases rd with
      | some e => exact absurd hrd (by simp)
      | none =>
        have hfd : fileDecision nameToId std.manifest f = fileDecision nameToId stw.manifest f :=
          fileDecision_congr nameToId std.manifest stw.manifest f (hagree f (by simp))
        have hwdec := syncStep_ok_decisions env nameToId false stw stw' f hw
        have hddec := syncStep_ok_decisions env nameToId true std std' f hd
        have hdec' : std'.decisions = stw'.decisions := by
          rw [hwdec, hddec, hfd, hdec]
        simp only [List.map_cons, List.nodup_cons] at hnodup
        have hagree' : ∀ g ∈ fs, dget std'.manifest g.relPath = dget stw'.manifest g.relPath := by
          intro g hg
          have hne : f.relPath ≠ g.relPath := by
            intro heq
            exact hnodup.1 (heq ▸ List.mem_map_of_mem LocalFile.relPath hg)
          have hframe := syncStep_manifest_frame env nameToId false stw f g.relPath hne
          rw [hw] at hframe
          rw [hdman, hframe]
          exact hagree g (by simp [hg])
        exact ih stw' std' st hagree' hnodup.2 hdec' h

/-! ## JSON round-trip lemmas -/

theorem hexVal_hexDigitChar (n : Nat) (h : n < 16) : hexVal (hexDigitChar n) = some n := by
  interval_cases n <;> decide

/-- Scanning the escaped expansion of one character appends exactly that
character to the string being built. -/
theorem foldl_escChar (ctx : StrCtx) (cs : List Char) (c : Char) :
    List.foldl jstep (PSt.str ctx cs StrPos.norm) (escChar c) =
      PSt.str ctx (c :: cs) StrPos.norm := by
  by_cases h1 : c = '"'
  · subst h1; rfl
  by_cases h2 : c = '\\'
  · subst h2; rfl
  by_cases h8 : c.toNat < 32
  · obtain ⟨n, hn, rfl⟩ : ∃ n, n < 32 ∧ c = Char.ofNat n :=
      ⟨c.toNat, h8, (Char.ofNat_toNat c).symm⟩
    interval_cases n <;> rfl
  · have h3 : c ≠ '\x08' := by rintro rfl; exact h8 (by decide)
    have h4 : c ≠ '\t' := by rintro rfl; exact h8 (by decide)
    have h5 : c ≠ '\n' := by rintro rfl; exact h8 (by decide)
    have h6 : c ≠ '\x0c' := by rintro rfl; exact h8 (by decide)
    have h7 : c ≠ '\r' := by rintro rfl; exact h8 (by decide)
    have hesc : escChar c = [c] := by
      simp only [escChar, if_neg h1, if_neg h2, if_neg h3, if_neg h4, if_neg h5,
        if_neg h6, if_neg h7, if_neg h8]
    rw [hesc]
    simp only [List.foldl_cons, List.foldl_nil, jstep]
    rw [if_neg h1, if_neg h2, if_neg h8]

/-- Scanning the escaped body of a string accumulates it (reversed). -/
theorem foldl_encChars (l : List Char) : ∀ (ctx : StrCtx) (cs : List Char),
    List.foldl jstep (PSt.str ctx cs StrPos.norm) (encChars l) =
      PSt.str ctx (l.reverse ++ cs) StrPos.norm := by
  induction l with
  | nil => intro ctx cs; simp [encChars]
  | cons c rest ih =>
    intro ctx cs
    simp only [encChars, List.foldl_append, foldl_escChar, ih]
    simp

/-- Scanning a whole string literal from a state that opens one delivers
the parsed string to the context's continuation. -/
theorem foldl_quoteString (s : String) (st : PSt) (ctx : StrCtx)
    (hopen : jstep st '"' = PSt.str ctx [] StrPos.norm) :
    List.foldl jstep st (quoteString s).data = finishStr ctx s := by
  have hdata : (quoteString s).data = '"' :: (encChars s.data ++ ['"']) := by
    simp [quoteString, String.data_append]
  rw [hdata]
  simp only [List.foldl_cons, hopen, List.foldl_append, foldl_encChars]
  simp only [List.foldl_cons, List.foldl_nil, List.append_nil]
  show finishStr ctx (String.mk s.data.reverse.reverse) = finishStr ctx s
  rw [List.reverse_reverse]

/-- Folding over whitespace from a whitespace-absorbing state stays
put. -/
theorem foldl_ws (X : PSt) (hws : ∀ c, isJsonWs c = true → jstep X c = X) :
    ∀ l : List Char, (∀ c ∈ l, isJsonWs c = true) → List.foldl jstep X l = X := by
  intro l
  induction l with
  | nil => intro _; rfl
  | cons c rest ih =>
    intro h
    simp only [List.foldl_cons, hws c (h c (by simp))]
    exact ih (fun d hd => h d (by simp [hd]))

/-- Scanning the serialized members of an inner (entry) object inserts
them all into the accumulator, in order. -/
theorem foldl_innerMembers : ∀ (e : MEntry), e ≠ [] →
    ∀ (acc : Manifest) (key : String) (iacc : MEntry) (X : PSt),
      (∀ c, isJsonWs c = true → jstep X c = X) →
      jstep X '"' = PSt.str (StrCtx.innerKey acc key iacc) [] StrPos.norm →
      List.foldl jstep X (dumpsInnerMembers e).data =
        PSt.innerAfter acc key (e.foldl (fun m kv => dset m kv.1 kv.2) iacc) := by
  intro e
  induction e with
  | nil => intro h; exact absurd rfl h
  | cons kv rest ih =>
    intro _ acc key iacc X hws hopen
    obtain ⟨k, v⟩ := kv
    cases rest with
    | nil =>
      simp only [dumpsInnerMembers, String.data_append, List.foldl_append]
      rw [foldl_ws X hws _ (by decide)]
      rw [foldl_quoteString k X (StrCtx.innerKey acc key iacc) hopen]
      have f3 : List.foldl jstep (finishStr (StrCtx.innerKey acc key iacc) k) (": ").data =
          PSt.innerValQ acc key iacc k := rfl
      rw [f3]
      rw [foldl_quoteString v (PSt.innerValQ acc key iacc k)
        (StrCtx.innerVal acc key iacc k) rfl]
      rfl
    | cons kv₂ rest₂ =>
      simp only [dumpsInnerMembers, String.data_append, List.foldl_append]
      rw [foldl_ws X hws _ (by decide)]
      rw [foldl_quoteString k X (StrCtx.innerKey acc key iacc) hopen]
      have f3 : List.foldl jstep (finishStr (StrCtx.innerKey acc key iacc) k) (": ").data =
          PSt.innerValQ acc key iacc k := rfl
      rw [f3]
      rw [foldl_quoteString v (PSt.innerValQ acc key iacc k)
        (StrCtx.innerVal acc key iacc k) rfl]
      have f5 : List.foldl jstep (finishStr (StrCtx.innerVal acc key iacc k) v) (",\n").data =
          PSt.innerKeyQ acc key (dset iacc k v) := rfl
      rw [f5]
      rw [ih (by simp) acc key (dset iacc k v) (PSt.innerKeyQ acc key (dset iacc k v))
        (fun c hc => by simp [jstep, hc]) rfl]
      rfl

/-- Scanning a serialized inner object from the state expecting the
top-level value stores the entry under its key. -/
theorem foldl_dumpsInner (v : MEntry) (hnd : (v.map Prod.fst).Nodup)
    (acc : Manifest) (key : String) :
    List.foldl jstep (PSt.topVal acc key) (dumpsInner v).data =
      PSt.topAfter (dset acc key v) := by
  cases v with
  | nil => rfl
  | cons kv rest =>
    show List.foldl jstep (PSt.topVal acc key)
        ("\x7b\n" ++ dumpsInnerMembers (kv :: rest) ++ "\n  \x7d").data = _
    simp only [String.data_append, List.foldl_append]
    have f1 : List.foldl jstep (PSt.topVal acc key) ("\x7b\n").data =
        PSt.innerFirst acc key [] := rfl
    rw [f1]
    rw [foldl_innerMembers (kv :: rest) (by simp) acc key [] (PSt.innerFirst acc key [])
      (fun c hc => by simp [jstep, hc]) rfl]
    rw [foldl_dset_nil (kv :: rest) hnd]
    rfl

/-- Scanning the serialized members of the top-level object inserts all
path/entry pairs into the accumulator, in order. -/
theorem foldl_topMembers : ∀ (m : Manifest), m ≠ [] →
    (∀ kv ∈ m, ((kv.2 : MEntry).map Prod.fst).Nodup) →
    ∀ (acc : Manifest) (X : PSt),
      (∀ c, isJsonWs c = true → jstep X c = X) →
      jstep X '"' = PSt.str (StrCtx.topKey acc) [] StrPos.norm →
      List.foldl jstep X (dumpsMembers m).data =
        PSt.topAfter (m.foldl (fun a kv => dset a kv.1 kv.2) acc) := by
  intro m
  induction m with
  | nil => intro h; exact absurd rfl h
  | cons kv rest ih =>
    intro _ hinner acc X hws hopen
    obtain ⟨k, v⟩ := kv
    have hv : (v.map Prod.fst).Nodup := hinner (k, v) (by simp)
    cases rest with
    | nil =>
      simp only [dumpsMembers, String.data_append, List.foldl_append]
      rw [foldl_ws X hws _ (by decide)]
      rw [foldl_quoteString k X (StrCtx.topKey acc) hopen]
      have f3 : List.foldl jstep (finishStr (StrCtx.topKey acc) k) (": ").data =
          PSt.topVal acc k := rfl
      rw [f3]
      rw [foldl_dumpsInner v hv acc k]
      rfl
    | cons kv₂ rest₂ =>
      simp only [dumpsMembers, String.data_append, List.foldl_append]
      rw [foldl_ws X hws _ (by decide)]
      rw [foldl_quoteString k X (StrCtx.topKey acc) hopen]
      have f3 : List.foldl jstep (finishStr (StrCtx.topKey acc) k) (": ").data =
          PSt.topVal acc k := rfl
      rw [f3]
      rw [foldl_dumpsInner v hv acc k]
      have f5 : List.foldl jstep (PSt.topAfter (dset acc k v)) (",\n").data =
          PSt.topKeyQ (dset acc k v) := rfl
      rw [f5]
      rw [ih (by simp) (fun kv hkv => hinner kv (by simp [hkv])) (dset acc k v)
        (PSt.topKeyQ (dset acc k v)) (fun c hc => by simp [jstep, hc]) rfl]
      rfl

/-- The parser accepts exactly what the serializer wrote. -/
theorem parseManifest_dumpsManifest (m : Manifest)
    (houter : (m.map Prod.fst).Nodup)
    (hinner : ∀ kv ∈ m, ((kv.2 : MEntry).map Prod.fst).Nodup) :
    parseManifest (dumpsManifest m) = Except.ok m := by
  cases m with
  | nil => rfl
  | cons kv rest =>
    unfold parseManifest
    show (match List.foldl jstep PSt.start
        ("\x7b\n" ++ dumpsMembers (kv :: rest) ++ "\n\x7d").data with
      | PSt.done acc => Except.ok acc
      | _ => Except.error "invalid manifest JSON") = Except.ok (kv :: rest)
    simp only [String.data_append, List.foldl_append]
    have f1 : List.foldl jstep PSt.start ("\x7b\n").data = PSt.topFirst [] := rfl
    rw [f1]
    rw [foldl_topMembers (kv :: rest) (by simp) hinner [] (PSt.topFirst [])
      (fun c hc => by simp [jstep, hc]) rfl]
    rw [foldl_dset_nil (kv :: rest) houter]
    rfl

end DifySync

namespace DifySync

/-! ## The claims -/

/-- C9: when the remote listing contains two or more documents with the
same name, the name→id index built by `sync_docs` (the dict comprehension
over the listing) maps that name to the id of the document occurring later
in listing order — last occurrence wins. -/
theorem nameToId_last_wins (l₁ l₂ : List RemoteDoc) (d d₀ : RemoteDoc)
    (hdup : d₀ ∈ l₁) (hname : d₀.name = d.name)
    (hlast : ∀ d' ∈ l₂, d'.name ≠ d.name) :
    dget (buildNameToId (l₁ ++ d :: l₂)) d.name = some d.id := by
  unfold buildNameToId
  rw [List.foldl_append, List.foldl_cons]
  rw [dget_foldl_names_ne l₂ d.name _ hlast]
  exact dget_dset_self _ d.name d.id

/-- Witness for C9: two remote documents both named `a.txt`; the index
holds the id of the second. -/
theorem nameToId_last_wins_witness :
    dget (buildNameToId [⟨some "a.txt", some "R1"⟩, ⟨some "a.txt", some "R2"⟩])
      (some "a.txt") = some (some "R2") :=
  nameToId_last_wins [⟨some "a.txt", some "R1"⟩] [] ⟨some "a.txt", some "R2"⟩
    ⟨some "a.txt", some "R1"⟩ (by simp) rfl (by simp)

/-- The paging loop from page `p`: if `k` is the first page at or after
`p` with fewer than `limit` items, the loop requests exactly pages
`p..k` and returns their items concatenated. -/
theorem listAllFrom_pages (pages : Nat → Option (List RemoteDoc)) (limit : Nat) :
    ∀ (fuel p k : Nat), p ≤ k → k - p < fuel →
      ((pages k).getD []).length < limit →
      (∀ j, p ≤ j → j < k → ¬ ((pages j).getD []).length < limit) →
      listAllFrom pages limit fuel p =
        (((List.range' p (k - p + 1)).map (fun n => (pages n).getD [])).flatten,
         List.range' p (k - p + 1)) := by
  intro fuel
  induction fuel with
  | zero => intro p k _ hf; omega
  | succ f ih =>
    intro p k hpk hf hshort hlong
    rcases Nat.eq_or_lt_of_le hpk with heq | hlt
    · subst heq
      simp only [listAllFrom, if_pos hshort, Nat.sub_self]
      simp [List.range']
    · have hnotshort : ¬ ((pages p).getD []).length < limit :=
        hlong p le_rfl hlt
      have hrec := ih (p + 1) k hlt (by omega) hshort
        (fun j hj hjk => hlong j (by omega) hjk)
      simp only [listAllFrom, if_neg hnotshort, hrec]
      have hk : k - p + 1 = (k - (p + 1) + 1) + 1 := by omega
      rw [hk]
      simp [List.range'_succ]

/-- C8: `list_all_documents` requests pages starting at page 1; when some
page eventually holds fewer than `limit` items, it returns the
concatenation of the item lists of pages 1 through the first such short
page, requesting exactly those pages — so it stops at the first short page
and a page of exactly `limit` items always triggers one more request. -/
theorem list_all_documents_pages (pages : Nat → Option (List RemoteDoc))
    (limit fuel k : Nat) (hk : 1 ≤ k) (hfuel : k ≤ fuel)
    (hshort : ((pages k).getD []).length < limit)
    (hlong : ∀ j, 1 ≤ j → j < k → limit ≤ ((pages j).getD []).length) :
    list_all_documents pages limit fuel =
      (((List.range' 1 k).map (fun n => (pages n).getD [])).flatten,
       List.range' 1 k) := by
  have h := listAllFrom_pages pages limit fuel 1 k hk (by omega) hshort
    (fun j hj hjk => by have := hlong j hj hjk; omega)
  have hk1 : k - 1 + 1 = k := by omega
  rw [hk1] at h
  exact h

/-- Witness for C8: page 1 returns 2 items at `limit = 2` (a full page, so
one more request follows), page 2 returns 1 item (short); the result is
the concatenation of pages 1 and 2 and exactly pages 1, 2 were
requested. -/
theorem list_all_documents_pages_witness :
    list_all_documents
      (fun n => if n = 1 then some [⟨some "a", some "1"⟩, ⟨some "b", some "2"⟩]
                else some [⟨some "c", some "3"⟩]) 2 5 =
      ([⟨some "a", some "1"⟩, ⟨some "b", some "2"⟩, ⟨some "c", some "3"⟩],
       [1, 2]) := by
  have h := list_all_documents_pages
    (fun n => if n = 1 then some [⟨some "a", some "1"⟩, ⟨some "b", some "2"⟩]
              else some [⟨some "c", some "3"⟩]) 2 5 2
    (by omega) (by omega) (by simp)
    (by intro j h1 h2
        have : j = 1 := by omega
        subst this
        simp)
  simpa [List.range'] using h

/-- C1: for a locally discovered file whose path has a manifest entry
whose stored hash equals the file's freshly computed hash, `sync_docs`
performs no remote call for that file and leaves its manifest entry
unchanged: at the moment the run reaches the file, the step makes no
create or update call, increments the skipped count by one and leaves
the in-memory manifest untouched; over the whole run, the file's
manifest entry is still the original one and no remote call in the trace
is for that file. -/
theorem sync_skip_unchanged (env : RemoteEnv)
    (nameToId : List (Option String × Option String)) (dry : Bool)
    (m₀ : Manifest) (fs₁ fs₂ : List LocalFile) (f : LocalFile)
    (prev : MEntry) (st₁ : SyncState)
    (hnodup : ((fs₁ ++ f :: fs₂).map LocalFile.relPath).Nodup)
    (hprev : dget m₀ f.relPath = some prev)
    (hhash : dget prev "sha256" = some f.hash)
    (h₁ : syncLoop env nameToId dry fs₁ (initState m₀) = (st₁, none)) :
    syncStep env nameToId dry st₁ f =
      ({ st₁ with skipped := st₁.skipped + 1,
                  decisions := st₁.decisions ++ [(f.relPath, Decision.skip)] }, none) ∧
    dget (syncLoop env nameToId dry (fs₁ ++ f :: fs₂) (initState m₀)).1.manifest f.relPath
      = some prev ∧
    ∀ c ∈ (syncLoop env nameToId dry (fs₁ ++ f :: fs₂) (initState m₀)).1.calls,
      c.file ≠ f.relPath := by
  have hmid : (f.relPath :: (fs₁.map LocalFile.relPath ++ fs₂.map LocalFile.relPath)).Nodup := by
    rw [← List.nodup_middle]
    simpa using hnodup
  rw [List.nodup_cons] at hmid
  have hfs₁ : ∀ g ∈ fs₁, g.relPath ≠ f.relPath := by
    intro g hg heq
    exact hmid.1 (List.mem_append_left _ (heq ▸ List.mem_map_of_mem LocalFile.relPath hg))
  have hfs₂ : ∀ g ∈ fs₂, g.relPath ≠ f.relPath := by
    intro g hg heq
    exact hmid.1 (List.mem_append_right _ (heq ▸ List.mem_map_of_mem LocalFile.relPath hg))
  have hm₁ : dget st₁.manifest f.relPath = some prev := by
    have hframe := syncLoop_manifest_frame env nameToId dry fs₁ (initState m₀) f.relPath hfs₁
    rw [h₁] at hframe
    simpa [initState, hprev] using hframe
  have hskipcond : dget ((dget st₁.manifest f.relPath).getD []) "sha256" = some f.hash := by
    rw [hm₁]
    simpa using hhash
  have hstep := syncStep_skip env nameToId dry st₁ f hskipcond
  refine ⟨hstep, ?_, ?_⟩
  all_goals
    rw [syncLoop_append env nameToId dry fs₁ (f :: fs₂) (initState m₀), h₁]
    simp only [syncLoop]
    rw [hstep]
  · have hframe := syncLoop_manifest_frame env nameToId dry fs₂
      ({ st₁ with skipped := st₁.skipped + 1,
                  decisions := st₁.decisions ++ [(f.relPath, Decision.skip)] })
      f.relPath hfs₂
    rw [hframe]
    exact hm₁
  · intro c hc
    rcases syncLoop_calls env nameToId dry fs₂ _ c hc with hin | ⟨g, hg, hgf⟩
    · simp only [] at hin
      rcases syncLoop_calls env nameToId dry fs₁ (initState m₀) c (by rw [h₁]; exact hin)
        with hin' | ⟨g, hg, hgf⟩
      · simp [initState] at hin'
      · rw [hgf]; exact hfs₁ g hg
    · rw [hgf]; exact hfs₂ g hg

/-- Witness for C1: one file whose manifest entry stores its current
hash; the run leaves its entry unchanged. -/
theorem sync_skip_unchanged_witness :
    dget (syncLoop ⟨fun _ _ => none, fun _ => Except.ok ⟨none⟩⟩ [] false
        ([] ++ ⟨"a.txt", "a.txt", "H"⟩ :: [])
        (initState [("a.txt", [("sha256", "H"), ("document_id", "R1")])])).1.manifest "a.txt"
      = some [("sha256", "H"), ("document_id", "R1")] :=
  (sync_skip_unchanged ⟨fun _ _ => none, fun _ => Except.ok ⟨none⟩⟩ [] false
    [("a.txt", [("sha256", "H"), ("document_id", "R1")])] [] []
    ⟨"a.txt", "a.txt", "H"⟩ [("sha256", "H"), ("document_id", "R1")]
    (initState [("a.txt", [("sha256", "H"), ("document_id", "R1")])])
    (by simp) rfl rfl rfl).2.1

/-- C2: for a non-skipped file in a non-dry run, the engine resolves the
target id by preferring the manifest entry's `document_id` when present
and non-empty (an update against it follows, no create); otherwise it
falls back to the name index keyed by the file's base name (an update
against that id follows when it is non-empty); when neither yields an id
a create is issued, and the manifest entry records the id from the create
response, falling back to the name index when the response carries
none. -/
theorem sync_resolve_target (env : RemoteEnv)
    (nameToId : List (Option String × Option String)) (st : SyncState) (f : LocalFile)
    (hns : ¬ dget ((dget st.manifest f.relPath).getD []) "sha256" = some f.hash) :
    (∀ id, dget ((dget st.manifest f.relPath).getD []) "document_id" = some id → id ≠ "" →
       (syncStep env nameToId false st f).1.calls =
         st.calls ++ [RemoteCall.update id f.relPath]) ∧
    (∀ rid, strTruthy (dget ((dget st.manifest f.relPath).getD []) "document_id") = false →
       (dget nameToId (some f.name)).join = some rid → rid ≠ "" →
       (syncStep env nameToId false st f).1.calls =
         st.calls ++ [RemoteCall.update rid f.relPath]) ∧
    (strTruthy (pyOr (dget ((dget st.manifest f.relPath).getD []) "document_id")
        ((dget nameToId (some f.name)).join)) = false →
       (syncStep env nameToId false st f).1.calls =
         st.calls ++ [RemoteCall.create f.relPath] ∧
       ∀ resp, env.createResult f.relPath = Except.ok resp →
         dget (syncStep env nameToId false st f).1.manifest f.relPath =
           some [("sha256", f.hash),
                 ("document_id",
                  (pyOr resp.documentId ((dget nameToId (some f.name)).join)).getD "")]) := by
  refine ⟨?_, ?_, ?_⟩
  · intro id hid hne
    have hdoc : pyOr (dget ((dget st.manifest f.relPath).getD []) "document_id")
        ((dget nameToId (some f.name)).join) = some id := by
      rw [pyOr_pos _ _ (by rw [hid]; simpa [strTruthy] using hne), hid]
    rcases hu : env.updateResult id f.relPath with _ | e
    · rw [syncStep_update_ok env nameToId st f id hns hdoc hne hu]
    · rw [syncStep_update_err env nameToId st f id e hns hdoc hne hu]
  · intro rid hfalse hrid hne
    have hdoc : pyOr (dget ((dget st.manifest f.relPath).getD []) "document_id")
        ((dget nameToId (some f.name)).join) = some rid := by
      rw [pyOr_neg _ _ hfalse, hrid]
    rcases hu : env.updateResult rid f.relPath with _ | e
    · rw [syncStep_update_ok env nameToId st f rid hns hdoc hne hu]
    · rw [syncStep_update_err env nameToId st f rid e hns hdoc hne hu]
  · intro hfalse
    constructor
    · rcases hc : env.createResult f.relPath with e | resp
      · rw [syncStep_create_err env nameToId st f e hns hfalse hc]
      · rw [syncStep_create_ok env nameToId st f resp hns hfalse hc]
    · intro resp hc
      rw [syncStep_create_ok env nameToId st f resp hns hfalse hc]
      simp only []
      exact dget_dset_self _ _ _

/-- Witness for C2: the manifest has no entry for the file but the remote
listing knows `a.txt` as `R1`, so the engine issues an update against
`R1`, not a create. -/
theorem sync_resolve_target_witness :
    (syncStep ⟨fun _ _ => none, fun _ => Except.ok ⟨none⟩⟩ [(some "a.txt", some "R1")] false
        (initState []) ⟨"a.txt", "a.txt", "H"⟩).1.calls =
      [RemoteCall.update "R1" "a.txt"] := by
  have h := (sync_resolve_target ⟨fun _ _ => none, fun _ => Except.ok ⟨none⟩⟩
    [(some "a.txt", some "R1")] (initState []) ⟨"a.txt", "a.txt", "H"⟩
    (by simp [dget])).2.1 "R1" rfl rfl (by simp)
  simpa [initState] using h

/-- C10: in a completed non-dry run every discovered file is counted
exactly once, so `updated + skipped` equals the number of collected
files; a dry run counts would-be creates and updates in neither total,
so its `updated` count is 0 (and it always completes). -/
theorem sync_counts (env : RemoteEnv)
    (nameToId : List (Option String × Option String))
    (files : List LocalFile) (m₀ : Manifest) :
    (∀ st, syncLoop env nameToId false files (initState m₀) = (st, none) →
       st.updated + st.skipped = files.length) ∧
    (syncLoop env nameToId true files (initState m₀)).2 = none ∧
    (syncLoop env nameToId true files (initState m₀)).1.updated = 0 := by
  refine ⟨?_, (syncLoop_dry_total env nameToId files (initState m₀)).1, ?_⟩
  · intro st h
    have := syncLoop_wet_counts env nameToId files (initState m₀) st h
    simpa [initState] using this
  · have := (syncLoop_dry_total env nameToId files (initState m₀)).2.2.2
    simpa [initState] using this

/-- Witness for C10: a non-dry run over one new file counts it once
(`updated + skipped = 1`); the dry run over the same input reports
`updated = 0`. -/
theorem sync_counts_witness :
    (syncLoop ⟨fun _ _ => none, fun _ => Except.ok ⟨some "R9"⟩⟩ [] false
        [⟨"a.txt", "a.txt", "H"⟩] (initState [])).1.updated +
      (syncLoop ⟨fun _ _ => none, fun _ => Except.ok ⟨some "R9"⟩⟩ [] false
        [⟨"a.txt", "a.txt", "H"⟩] (initState [])).1.skipped = 1 ∧
    (syncLoop ⟨fun _ _ => none, fun _ => Except.ok ⟨some "R9"⟩⟩ [] true
        [⟨"a.txt", "a.txt", "H"⟩] (initState [])).1.updated = 0 :=
  ⟨(sync_counts ⟨fun _ _ => none, fun _ => Except.ok ⟨some "R9"⟩⟩ []
      [⟨"a.txt", "a.txt", "H"⟩] []).1 _ rfl,
   (sync_counts ⟨fun _ _ => none, fun _ => Except.ok ⟨some "R9"⟩⟩ []
      [⟨"a.txt", "a.txt", "H"⟩] []).2.2⟩

/-- C4: a remote-call failure aborts the whole run: the loop's result on
any longer batch equals its result on the failing prefix (no later file
is processed), and whenever a `sync_docs` run ends with an error, the
manifest was not saved and the manifest file keeps its pre-run
contents. -/
theorem sync_abort_no_save (env : RemoteEnv)
    (nameToId : List (Option String × Option String)) (dry : Bool)
    (fs₁ fs₂ : List LocalFile) (st₀ : SyncState) (e : RemoteErr)
    (h : (syncLoop env nameToId dry fs₁ st₀).2 = some e) :
    syncLoop env nameToId dry (fs₁ ++ fs₂) st₀ = syncLoop env nameToId dry fs₁ st₀ ∧
    ∀ (listing : Except RemoteErr (List RemoteDoc)) (files : List LocalFile)
      (contents : Option String) (dry' : Bool) (err : SyncError),
      (sync_docs env listing files contents dry').error = some err →
      (sync_docs env listing files contents dry').saved = false ∧
      (sync_docs env listing files contents dry').fileContents = contents := by
  constructor
  · rw [syncLoop_append env nameToId dry fs₁ fs₂ st₀]
    rcases hl : syncLoop env nameToId dry fs₁ st₀ with ⟨st', r⟩
    rw [hl] at h
    simp only [] at h
    subst h
    rfl
  · intro listing files contents dry' err herr
    unfold sync_docs at herr ⊢
    rcases hload : _load_manifest contents with el | m
    · simp [hload]
    · rcases listing with el | docs
      · simp [hload]
      · simp only [hload] at herr ⊢
        rcases hloop : syncLoop env (buildNameToId docs) dry' files (initState m) with ⟨st, r⟩
        cases r with
        | some e' => exact ⟨rfl, rfl⟩
        | none =>
          cases dry' with
          | true => exact ⟨rfl, rfl⟩
          | false =>
            rw [hloop] at herr
            simp at herr

/-- Witness for C4: the create call for the first file fails, so the run
over a two-file batch equals the run over the first file alone, and the
failed `sync_docs` run reports the error without saving; the file
contents stay `none`. -/
theorem sync_abort_no_save_witness :
    syncLoop ⟨fun _ _ => none, fun _ => Except.error "boom"⟩ [] false
        ([⟨"a.txt", "a.txt", "H"⟩] ++ [⟨"b.txt", "b.txt", "K"⟩]) (initState []) =
      syncLoop ⟨fun _ _ => none, fun _ => Except.error "boom"⟩ [] false
        [⟨"a.txt", "a.txt", "H"⟩] (initState []) ∧
    (sync_docs ⟨fun _ _ => none, fun _ => Except.error "boom"⟩ (Except.ok [])
        [⟨"a.txt", "a.txt", "H"⟩] none false).saved = false ∧
    (sync_docs ⟨fun _ _ => none, fun _ => Except.error "boom"⟩ (Except.ok [])
        [⟨"a.txt", "a.txt", "H"⟩] none false).fileContents = none :=
  ⟨(sync_abort_no_save ⟨fun _ _ => none, fun _ => Except.error "boom"⟩ [] false
      [⟨"a.txt", "a.txt", "H"⟩] [⟨"b.txt", "b.txt", "K"⟩] (initState []) "boom" rfl).1,
   (sync_abort_no_save ⟨fun _ _ => none, fun _ => Except.error "boom"⟩ [] false
      [⟨"a.txt", "a.txt", "H"⟩] [⟨"b.txt", "b.txt", "K"⟩] (initState []) "boom" rfl).2
     (Except.ok []) [⟨"a.txt", "a.txt", "H"⟩] none false (SyncError.remote "boom") rfl⟩

/-- C3: a dry run computes the same per-file decisions as a completed
non-dry run over the same inputs (manifest, listing, files with distinct
relative paths), makes no remote create or update call, and leaves the
manifest file's bytes unchanged (it is never saved). -/
theorem sync_dry_run_invariant (env : RemoteEnv)
    (nameToId : List (Option String × Option String))
    (files : List LocalFile) (m₀ : Manifest)
    (listing : Except RemoteErr (List RemoteDoc)) (contents : Option String)
    (hnodup : (files.map LocalFile.relPath).Nodup) :
    (∀ st, syncLoop env nameToId false files (initState m₀) = (st, none) →
       (syncLoop env nameToId true files (initState m₀)).1.decisions = st.decisions) ∧
    (syncLoop env nameToId true files (initState m₀)).1.calls = [] ∧
    (sync_docs env listing files contents true).saved = false ∧
    (sync_docs env listing files contents true).fileContents = contents := by
  refine ⟨?_, ?_, ?_, ?_⟩
  · intro st h
    exact syncLoop_dry_wet env nameToId files (initState m₀) (initState m₀) st
      (fun _ _ => rfl) hnodup rfl h
  · have := (syncLoop_dry_total env nameToId files (initState m₀)).2.1
    simpa [initState] using this
  all_goals
    unfold sync_docs
    rcases hload : _load_manifest contents with el | m
    · simp
    · rcases listing with el | docs
      · simp
      · simp only []
        rcases hloop : syncLoop env (buildNameToId docs) true files (initState m) with ⟨st, r⟩
        cases r with
        | some e' => rfl
        | none => rfl

/-- Witness for C3: one changed file; the dry run logs the same (update)
decision the completed non-dry run logs, makes no calls, and the file
contents stay as they were. -/
theorem sync_dry_run_invariant_witness :
    (syncLoop ⟨fun _ _ => none, fun _ => Except.ok ⟨some "R9"⟩⟩
        [(some "a.txt", some "R1")] true [⟨"a.txt", "a.txt", "H"⟩] (initState [])).1.decisions =
      (syncLoop ⟨fun _ _ => none, fun _ => Except.ok ⟨some "R9"⟩⟩
        [(some "a.txt", some "R1")] false [⟨"a.txt", "a.txt", "H"⟩] (initState [])).1.decisions ∧
    (syncLoop ⟨fun _ _ => none, fun _ => Except.ok ⟨some "R9"⟩⟩
        [(some "a.txt", some "R1")] true [⟨"a.txt", "a.txt", "H"⟩] (initState [])).1.calls = [] ∧
    (sync_docs ⟨fun _ _ => none, fun _ => Except.ok ⟨some "R9"⟩⟩ (Except.ok [])
        [⟨"a.txt", "a.txt", "H"⟩] (some "\x7b\x7d") true).fileContents = some "\x7b\x7d" :=
  ⟨(sync_dry_run_invariant ⟨fun _ _ => none, fun _ => Except.ok ⟨some "R9"⟩⟩
      [(some "a.txt", some "R1")] [⟨"a.txt", "a.txt", "H"⟩] [] (Except.ok []) (some "\x7b\x7d")
      (by simp)).1 _ rfl,
   (sync_dry_run_invariant ⟨fun _ _ => none, fun _ => Except.ok ⟨some "R9"⟩⟩
      [(some "a.txt", some "R1")] [⟨"a.txt", "a.txt", "H"⟩] [] (Except.ok []) (some "\x7b\x7d")
      (by simp)).2.1,
   (sync_dry_run_invariant ⟨fun _ _ => none, fun _ => Except.ok ⟨some "R9"⟩⟩
      [(some "a.txt", some "R1")] [⟨"a.txt", "a.txt", "H"⟩] [] (Except.ok []) (some "\x7b\x7d")
      (by simp)).2.2.2⟩

/-- C5: saving a manifest (a mapping: distinct paths, each entry a
mapping of string fields) with `_save_manifest` and loading the same
file back with `_load_manifest` returns a manifest structurally equal to
the original. -/
theorem manifest_save_load_roundtrip (m : Manifest)
    (houter : (m.map Prod.fst).Nodup)
    (hinner : ∀ kv ∈ m, ((kv.2 : MEntry).map Prod.fst).Nodup) :
    _load_manifest (some (_save_manifest m)) = Except.ok m :=
  parseManifest_dumpsManifest m houter hinner

/-- Witness for C5: a two-entry manifest, one entry holding hash and id
fields with characters that need JSON escaping, round-trips exactly. -/
theorem manifest_save_load_roundtrip_witness :
    _load_manifest (some (_save_manifest
      [("a \"quoted\"\npath.txt", [("sha256", "abc123"), ("document_id", "R\\1")]),
       ("b/c.md", [])])) =
    Except.ok
      [("a \"quoted\"\npath.txt", [("sha256", "abc123"), ("document_id", "R\\1")]),
       ("b/c.md", [])] :=
  manifest_save_load_roundtrip
    [("a \"quoted\"\npath.txt", [("sha256", "abc123"), ("document_id", "R\\1")]),
     ("b/c.md", [])] (by simp) (by simp)

/-- C6: `_load_manifest` returns the empty manifest when the manifest
file does not exist; when the file exists but its contents fail to parse,
the parse failure propagates to the caller (there is no handler treating a
corrupt manifest as empty). -/
theorem load_manifest_missing_empty_corrupt_strict :
    _load_manifest none = Except.ok ([] : Manifest) ∧
    ∀ s e, parseManifest s = Except.error e →
      _load_manifest (some s) = Except.error e :=
  ⟨rfl, fun _ _ h => h⟩

/-- Witness for C6: a missing file loads as `{}`; the unparseable
contents `"not json"` make the load fail. -/
theorem load_manifest_missing_empty_corrupt_strict_witness :
    _load_manifest none = Except.ok ([] : Manifest) ∧
    _load_manifest (some "not json") = Except.error "invalid manifest JSON" :=
  ⟨load_manifest_missing_empty_corrupt_strict.1,
   load_manifest_missing_empty_corrupt_strict.2 "not json" _ rfl⟩

/-- C7 fails on the code: `_save_manifest` writes with
`Path.write_text`, which truncates the file in place before writing, so
while the save of a new manifest runs, the file passes through the empty
state — which differs both from the old contents (here a manifest with
hash `"h0"`) and from the new serialized manifest (hash `"h1"`).  A
failure between the truncation and the completed write therefore leaves a
file that is neither the old one nor the new one. -/
theorem save_manifest_partial_state :
    "" ∈ saveManifestStates [("a.txt", [("sha256", "h1"), ("document_id", "d1")])] ∧
    "" ≠ _save_manifest [("a.txt", [("sha256", "h1"), ("document_id", "d1")])] ∧
    "" ≠ _save_manifest [("a.txt", [("sha256", "h0"), ("document_id", "d1")])] := by
  refine ⟨?_, by decide, by decide⟩
  simp only [saveManifestStates, List.mem_map]
  exact ⟨0, by simp, rfl⟩

end DifySync
